import Mathlib

/-!
Verification of the fuzzy-finder terminal search engine
(`fuzzy_finder/src/lib.rs` of the lk repository).

Strings are modelled as `List Char`; Rust byte indexing into UTF-8
strings is modelled explicitly via the byte width of each character,
with `Option` capturing the panic branches (out-of-bounds or
non-character-boundary slice indices).  Machine integers (`u16`, `i16`,
`i8`) are modelled as `Nat`/`Int` with the casts of the source made
explicit.  The external fuzzy matcher (`SkimMatcherV2::fuzzy_indices`)
is an opaque parameter, as the spec treats it: a pure function from a
candidate string and a query to an optional score.
-/

namespace LK

/-- A fuzzy-match score as produced by `fuzzy_indices`: the rank
(`i64`) together with the matched byte positions (`Vec<usize>`). -/
abbrev Score := Int × List Nat

/-- Rust `Ord::cmp` on `usize` (total order on `Nat`). -/
def natCmpd (a b : Nat) : Ordering :=
  if a < b then .lt else if a = b then .eq else .gt

/-- Rust `Ord::cmp` on `i64` (total order, overflow-free here). -/
def intCmp (a b : Int) : Ordering :=
  if a < b then .lt else if a = b then .eq else .gt

/-- Rust `Ord::cmp` on `Vec<usize>`: lexicographic element comparison,
shorter list first on a common prefix. -/
def listNatCmp : List Nat → List Nat → Ordering
  | [], [] => .eq
  | [], _ :: _ => .lt
  | _ :: _, [] => .gt
  | a :: as, b :: bs => (natCmpd a b).then (listNatCmp as bs)

/-- Rust `Ord::cmp` on the tuple `(i64, Vec<usize>)`: lexicographic. -/
def scoreCmp (a b : Score) : Ordering :=
  (intCmp a.1 b.1).then (listNatCmp a.2 b.2)

/-- Rust `Ord::cmp` on `Option<(i64, Vec<usize>)>`: `None` is smaller
than any `Some`. -/
def optScoreCmp : Option Score → Option Score → Ordering
  | none, none => .eq
  | none, some _ => .lt
  | some _, none => .gt
  | some a, some b => scoreCmp a b

/-- Modelled from the spec: the item type of the missing
`fuzzy_finder/src/item.rs` (spec section 3, plus its uses in `lib.rs`):
a display label, an optional opaque payload, a mutable score slot, and
the blank-row marker used for list-window padding. -/
structure Item (T : Type) where
  name : List Char
  item : Option T
  score : Option Score
  is_blank : Bool
deriving DecidableEq

/-- `Item::new(name, payload)`: a non-blank item with no score yet. -/
def Item.new {T : Type} (name : List Char) (payload : T) : Item T :=
  ⟨name, some payload, none, false⟩

/-- A blank padding row of the list window. -/
def Item.blank {T : Type} : Item T := ⟨[], none, none, true⟩

/-- The matcher port (external collaborator): from a candidate name and
the current query, an optional score.  `fuzzy_indices` is deterministic
for fixed inputs, so a pure function is the faithful model. -/
abbrev Matcher := List Char → List Char → Option Score

/-! ### UTF-8 byte model for Rust string indexing -/

/-- Number of bytes of the UTF-8 encoding of a character. -/
def charSize (c : Char) : Nat :=
  if c.val < 0x80 then 1 else if c.val < 0x800 then 2
  else if c.val < 0x10000 then 3 else 4

/-- Byte length of a string (Rust `str::len`). -/
def byteLen (s : List Char) : Nat := (s.map charSize).sum

/-- Drop the first `n` bytes of a string; `none` when `n` is not a
character boundary or exceeds the byte length (a Rust byte slice
panics there). -/
def dropBytes : List Char → Nat → Option (List Char)
  | s, 0 => some s
  | [], _ + 1 => none
  | c :: rest, n + 1 =>
    if charSize c ≤ n + 1 then dropBytes rest (n + 1 - charSize c) else none

/-- Take the first `n` bytes of a string; `none` when `n` is not a
character boundary or exceeds the byte length. -/
def takeBytes : List Char → Nat → Option (List Char)
  | _, 0 => some []
  | [], _ + 1 => none
  | c :: rest, n + 1 =>
    if charSize c ≤ n + 1 then
      (takeBytes rest (n + 1 - charSize c)).map (c :: ·)
    else none

/-- Rust byte slice `&s[a..b]` (as the list of characters it denotes);
`none` models the panic branches: `a > b`, an index out of bounds, or
an index that is not a character boundary. -/
def slice (s : List Char) (a b : Nat) : Option (List Char) :=
  if a ≤ b then (dropBytes s a).bind (fun t => takeBytes t (b - a)) else none

/-! ### Terminal escape sequences (termion) and the colour palette -/

/-- The escape character. -/
def escC : Char := Char.ofNat 27

/-- Decimal digits of a number, for escape-sequence parameters. -/
def natChars (n : Nat) : List Char := Nat.toDigits 10 n

/-- termion `cursor::Save`. -/
def cursorSave : List Char := [escC, '[', 's']

/-- termion `cursor::Restore`. -/
def cursorRestore : List Char := [escC, '[', 'u']

/-- termion `cursor::Goto(x, y)`. -/
def cursorGoto (x y : Nat) : List Char :=
  [escC, '['] ++ natChars y ++ [';'] ++ natChars x ++ ['H']

/-- termion `clear::CurrentLine`. -/
def clearCurrentLine : List Char := [escC, '[', '2', 'K']

/-- termion `cursor::Left(n)`. -/
def cursorLeft (n : Nat) : List Char := [escC, '['] ++ natChars n ++ ['D']

/-- termion `cursor::Show`. -/
def cursorShow : List Char := [escC, '[', '?', '2', '5', 'h']

/-- Modelled from the spec: the fixed highlight palette of the external
pastel_colours crate (exact byte values are outside the core; these are
representative ANSI codes, and no claim depends on the exact bytes). -/
def DARK_GREY_BG : List Char := [escC, '[', '1', '0', '0', 'm']

/-- Modelled from the spec: pastel_colours dark blue background. -/
def DARK_BLUE_BG : List Char := [escC, '[', '4', '4', 'm']

/-- Modelled from the spec: pastel_colours dark grey foreground. -/
def DARK_GREY_FG : List Char := [escC, '[', '9', '0', 'm']

/-- Modelled from the spec: pastel_colours green foreground. -/
def GREEN_FG : List Char := [escC, '[', '3', '2', 'm']

/-- Modelled from the spec: pastel_colours blue foreground. -/
def BLUE_FG : List Char := [escC, '[', '3', '4', 'm']

/-- Modelled from the spec: pastel_colours background reset. -/
def RESET_BG : List Char := [escC, '[', '4', '9', 'm']

/-- Modelled from the spec: pastel_colours foreground reset. -/
def RESET_FG : List Char := [escC, '[', '3', '9', 'm']

/-! ### get_coloured_line (lib.rs lines 314-341) -/

/-- One iteration body of the `for i in fuzzy_indecies` loop of
`get_coloured_line`: the unmatched part before a matched character,
then the highlighted matched character. -/
def colourPiece (isSel : Bool) (part mc : List Char) : List Char :=
  if isSel then
    DARK_GREY_BG ++ part ++ RESET_BG ++ DARK_BLUE_BG ++ mc ++ RESET_BG
  else part ++ DARK_BLUE_BG ++ mc ++ RESET_BG

/-- The loop of `get_coloured_line` over the matched indices, carrying
the running `start` byte offset; returns the accumulated coloured text
and the final `start`.  `none` models a panicking byte slice. -/
def gclAux (text : List Char) (isSel : Bool) :
    List Nat → Nat → Option (List Char × Nat)
  | [], start => some ([], start)
  | i :: rest, start => do
    let part ← slice text start i
    let mc ← slice text i (i + 1)
    let (tail, fin) ← gclAux text isSel rest (i + 1)
    pure (colourPiece isSel part mc ++ tail, fin)

/-- `get_coloured_line(fuzzy_indecies, text, is_selected)` from
lib.rs lines 314-341.  The final segment is `&text[start..text.chars().count()]`,
i.e. its end index is the CHARACTER count used as a BYTE index, exactly
as in the source. -/
def get_coloured_line (idxs : List Nat) (text : List Char) (isSel : Bool) :
    Option (List Char) := do
  let (acc, start) ← gclAux text isSel idxs 0
  let remaining ← slice text start text.length
  if isSel then
    pure (DARK_GREY_BG ++ GREEN_FG ++ ['>'] ++ RESET_FG ++ RESET_BG ++
      (DARK_GREY_FG ++ [' ', ' '] ++ RESET_FG) ++ acc ++
      DARK_GREY_BG ++ remaining ++ RESET_BG)
  else
    pure (DARK_GREY_BG ++ [' '] ++ RESET_BG ++ [' ', ' '] ++ acc ++ remaining)

/-! ### List window (spec section 3 and 4.2; code in the missing list.rs) -/

/-- Modelled from the spec: the list window of the missing
`fuzzy_finder/src/list.rs` (spec sections 3 and 4.2, plus its uses in
`lib.rs`): a fixed row budget `lines_to_show` (`i8` in the source), a
window-relative selection index, a scroll offset, and the derived
visible rows (`items`), padded with blank rows to exactly the capacity.
The selection-identity tracking rule of spec section 3 needs payload
equality and is not exercised by any claim; selection and scroll are
clamped into the new bounds on update, as section 4.2 states. -/
structure ListW (T : Type) where
  lines_to_show : Int
  selected_index : Int
  scroll_offset : Nat
  items : List (Item T)
deriving DecidableEq

/-- Modelled from the spec: the visible rows are the capacity-sized
window of the matches at the scroll offset, padded with blank rows. -/
def visibleRows {T : Type} (cap scroll : Nat) («matches» : List (Item T)) :
    List (Item T) :=
  let vis := («matches».drop scroll).take cap
  vis ++ List.replicate (cap - vis.length) Item.blank

/-- Modelled from the spec: `List::new(lines_to_show)` starts with
selection 0, scroll 0 and an all-blank window. -/
def ListW.new (T : Type) (n : Int) : ListW T :=
  ⟨n, 0, 0, List.replicate n.toNat Item.blank⟩

/-- Modelled from the spec: `on_matches_changed` (section 4.2):
re-derive the visible rows from the current scroll offset and
selection, clamping both into the new bounds. -/
def ListW.update {T : Type} (l : ListW T) («matches» : List (Item T)) :
    ListW T :=
  let cap := l.lines_to_show.toNat
  let cnt := «matches».length
  let scroll := min l.scroll_offset (cnt - min cnt cap)
  let window := min cap (cnt - scroll)
  let sel : Int :=
    if window = 0 then 0 else min l.selected_index.toNat (window - 1)
  { l with
    selected_index := sel
    scroll_offset := scroll
    items := visibleRows cap scroll «matches» }

/-- Modelled from the spec: `move_selection Up` (section 4.2): no-op on
an empty match set; otherwise retreat the selection by one, clamped,
retreating the scroll offset by one when the selection would leave the
visible window. -/
def ListW.up {T : Type} (l : ListW T) («matches» : List (Item T)) : ListW T :=
  if «matches».isEmpty then l
  else if 0 < l.selected_index then
    { l with selected_index := l.selected_index - 1 }
  else if 0 < l.scroll_offset then
    { l with scroll_offset := l.scroll_offset - 1 }
  else l

/-- Modelled from the spec: `move_selection Down` (section 4.2):
advance the selection by one, clamped to the visible non-blank rows
(`List::down` takes no argument in the source, so the clamp can only
use the stored window), advancing the scroll offset by one when the
selection would leave a full window. -/
def ListW.down {T : Type} (l : ListW T) : ListW T :=
  let nonBlank := (l.items.filter (fun it => !it.is_blank)).length
  if l.selected_index + 1 < nonBlank then
    { l with selected_index := l.selected_index + 1 }
  else if 0 < nonBlank ∧ nonBlank = l.lines_to_show.toNat then
    { l with scroll_offset := l.scroll_offset + 1 }
  else l

/-- Modelled from the spec: `get_selected` returns the visible row at
the selection index (`lib.rs` dereferences it and unwraps its payload,
so the row itself is returned here, a blank row when out of range). -/
def ListW.get_selected {T : Type} (l : ListW T) : Item T :=
  l.items.getD l.selected_index.toNat Item.blank

/-! ### FuzzyFinder state and operations (lib.rs) -/

/-- The `FuzzyFinder<T>` struct (lib.rs lines 22-34), minus the raw
stdout handle (pure output is returned by the render functions). -/
structure FFState (T : Type) where
  search_term : List Char
  all_items : List (Item T)
  «matches» : List (Item T)
  console_offset : Nat
  first : Bool
  list : ListW T
  positive_space_remaining : Nat
deriving DecidableEq

/-- Rust `i8` value reinterpreted as `u16` (`lines_to_show as u16`). -/
def u16OfI8 (x : Int) : Nat := (x % 65536).toNat

/-- Rust `u16` value reinterpreted as `i16` (`as i16`). -/
def i16OfU16 (v : Nat) : Int := if v < 32768 then (v : Int) else (v : Int) - 65536

/-- The cursor-space accounting at the top of `FuzzyFinder::new`
(lib.rs lines 45-63): from the detected cursor row (`none` when
`cursor_pos()` fails), the terminal height and `lines_to_show`, compute
`(console_offset, positive_space_remaining)` with the casts of the
source made explicit.  On detection failure the offset is 0 and no
overflow space is reserved (the error is logged, not fatal). -/
def newOffsets (cursorPos : Option Nat) (termHeight : Nat)
    (linesToShow : Int) : Nat × Nat :=
  match cursorPos with
  | some y =>
    let endingY := (y % 65536 + u16OfI8 linesToShow) % 65536
    let space : Int := i16OfU16 (termHeight % 65536) - i16OfU16 endingY
    (y, if space < 0 then space.natAbs else 0)
  | none => (0, 0)

/-- `FuzzyFinder::new` (lib.rs lines 40-75).  The source signature is
`fn new(functions: Vec<Item<T>>, lines_to_show: i8) -> Self`: it always
returns a state, with no validation of any kind and no error type. -/
def FuzzyFinder.new {T : Type} (functions : List (Item T))
    (linesToShow : Int) (cursorPos : Option Nat) (termHeight : Nat) :
    FFState T :=
  let off := newOffsets cursorPos termHeight linesToShow
  { search_term := []
    all_items := functions
    «matches» := []
    console_offset := off.1
    first := true
    list := ListW.new T linesToShow
    positive_space_remaining := off.2 }

/-- The per-item rescan of `update_matches` (lib.rs lines 186-188, also
repeated inside `backspace`): one matcher call per item. -/
def rescore {T : Type} (m : Matcher) (q : List Char)
    (items : List (Item T)) : List (Item T) :=
  items.map (fun f => { f with score := m f.name q })

/-- The same rescan instrumented with the number of matcher
invocations it performs (one `fuzzy_indices` call per item). -/
def rescoreCounted {T : Type} (m : Matcher) (q : List Char) :
    List (Item T) → List (Item T) × Nat
  | [] => ([], 0)
  | f :: rest =>
    let (tail, n) := rescoreCounted m q rest
    ({ f with score := m f.name q } :: tail, n + 1)

/-- The sort order of `update_matches` (lib.rs line 203):
`matches.sort_by(|a, b| b.score.cmp(&a.score))`, i.e. `a` may precede
`b` exactly when comparing `b`'s whole score against `a`'s is not
Greater: descending by the full `Option<(rank, positions)>` value. -/
def matchOrder {T : Type} (a b : Item T) : Prop :=
  optScoreCmp b.score a.score ≠ Ordering.gt

instance {T : Type} : DecidableRel (@matchOrder T) := fun a b => by
  unfold matchOrder; infer_instance

/-- `FuzzyFinder::update_matches` (lib.rs lines 184-206): rescore every
item, filter to those with a score, sort by descending score with a
stable sort (Rust `sort_by` is stable; a stable sort is modelled by
insertion sort, which places earlier input before later input whenever
the comparator allows it), and re-derive the list window. -/
def FFState.update_matches {T : Type} (m : Matcher) (s : FFState T) :
    FFState T :=
  let all := rescore m s.search_term s.all_items
  let ms := List.insertionSort matchOrder (all.filter (fun f => f.score.isSome))
  { s with all_items := all, «matches» := ms, list := s.list.update ms }

/-- The number of matcher invocations performed by one call of
`update_matches` (the rescan loop of lib.rs lines 186-188). -/
def FFState.update_matches_calls {T : Type} (m : Matcher) (s : FFState T) :
    Nat :=
  (rescoreCounted m s.search_term s.all_items).2

/-- The model mutation of `FuzzyFinder::up` (lib.rs lines 77-81):
`list.up`, then `update_matches` (the subsequent `render` is separate,
as it only produces output and clears the first-paint flag). -/
def FFState.upQ {T : Type} (m : Matcher) (s : FFState T) : FFState T :=
  FFState.update_matches m { s with list := s.list.up s.«matches» }

/-- The matcher invocations performed by `FuzzyFinder::up` (the
`update_matches` call inside it). -/
def FFState.upQ_calls {T : Type} (m : Matcher) (s : FFState T) : Nat :=
  FFState.update_matches_calls m { s with list := s.list.up s.«matches» }

/-- The model mutation of `FuzzyFinder::down` (lib.rs lines 83-87). -/
def FFState.downQ {T : Type} (m : Matcher) (s : FFState T) : FFState T :=
  FFState.update_matches m { s with list := s.list.down }

/-- The model mutation of `FuzzyFinder::append` (lib.rs lines 89-95):
push the character onto the query, then `update_matches`. -/
def FFState.appendQ {T : Type} (m : Matcher) (c : Char) (s : FFState T) :
    FFState T :=
  FFState.update_matches m { s with search_term := s.search_term ++ [c] }

/-- The model mutation of `FuzzyFinder::backspace` (lib.rs lines
97-108): when the query is non-empty, truncate it to its first
`chars().count() - 1` BYTES (`&self.search_term[..count - 1]` — a byte
slice whose index is a character count, exactly as in the source) and
rescore; then `update_matches` in all cases.  `none` models the panic
when that byte index is not a character boundary. -/
def FFState.backspaceQ {T : Type} (m : Matcher) (s : FFState T) :
    Option (FFState T) :=
  if 0 < s.search_term.length then do
    let q ← takeBytes s.search_term (s.search_term.length - 1)
    pure (FFState.update_matches m
      { s with search_term := q, all_items := rescore m q s.all_items })
  else
    pure (FFState.update_matches m s)

/-! ### Render pipeline (lib.rs lines 110-181 and 209-214) -/

/-- `render_space` (lib.rs lines 110-123): save the cursor, write one
blank line per visible row on the FIRST paint only (clearing the
first-paint flag), restore the cursor. -/
def renderSpace {T : Type} (s : FFState T) : List Char × FFState T :=
  let body :=
    if s.first then
      (List.replicate s.list.lines_to_show.toNat [' ', '\n']).flatten
    else []
  (cursorSave ++ body ++ cursorRestore, { s with first := false })

/-- `goto_start` (lib.rs lines 125-132): move to column 1 of row
`console_offset - positive_space_remaining`; the subtraction is `u16`
arithmetic, so `none` models the underflow panic. -/
def gotoStart {T : Type} (s : FFState T) : Option (List Char) :=
  if s.positive_space_remaining ≤ s.console_offset then
    some (cursorGoto 1 (s.console_offset - s.positive_space_remaining))
  else none

/-- One row of `render_items` (lib.rs lines 136-158): a blank row is
just cleared; a match row is cleared, the cursor pulled fully left, and
the coloured line written.  `none` models the `unwrap` of a missing
score and the panics inside `get_coloured_line`. -/
def renderItemRow {T : Type} (selIdx : Int) (idx : Nat) (it : Item T) :
    Option (List Char) :=
  if it.is_blank then some (clearCurrentLine ++ ['\n'])
  else do
    let sc ← it.score
    let cl ← get_coloured_line sc.2 it.name ((idx : Int) = selIdx)
    pure (clearCurrentLine ++ cursorLeft 1000 ++ cl ++ ['\n'])

/-- `render_items` (lib.rs lines 134-160). -/
def renderItems {T : Type} (s : FFState T) : Option (List Char) := do
  let g ← gotoStart s
  let rows ← s.list.items.enum.mapM
    (fun p => renderItemRow s.list.selected_index p.1 p.2)
  pure (g ++ rows.flatten)

/-- `render_prompt` (lib.rs lines 162-181): clear, jump to the prompt
row at the after-query column, clear, then show the cursor, jump to
column 1 of the prompt row, and write the prompt glyph and the query. -/
def renderPrompt {T : Type} (s : FFState T) : List Char :=
  let promptY := u16OfI8 s.list.lines_to_show + 1
  let currentX := s.search_term.length + 2
  clearCurrentLine ++ cursorGoto currentX (promptY + s.console_offset) ++
    clearCurrentLine ++ cursorShow ++ cursorGoto 1 (promptY + s.console_offset) ++
    BLUE_FG ++ ['$'] ++ RESET_FG ++ [' '] ++ s.search_term

/-- `FuzzyFinder::render` (lib.rs lines 209-214): `render_space`, then
`render_items`, then `render_prompt`; returns the bytes written and the
state (only the first-paint flag can change). -/
def FFState.render {T : Type} (s : FFState T) :
    Option (List Char × FFState T) :=
  let sp := renderSpace s
  (renderItems sp.2).map (fun o2 => (sp.1 ++ o2 ++ renderPrompt sp.2, sp.2))

/-- Two repaints with no intervening model change: the output bytes of
the first and of the second `render`. -/
def renderTwice {T : Type} (s : FFState T) :
    Option (List Char × List Char) :=
  (s.render).bind (fun p => ((p.2).render).map (fun q => (p.1, q.1)))

/-! ### The session loop of `FuzzyFinder::find` (lib.rs lines 217-309) -/

/-- The raw key tokens delivered by `termion::async_stdin().keys()`
that the loop distinguishes (lib.rs lines 245-303). -/
inductive RKey where
  | ctrlC
  | ctrlD
  | char (c : Char)
  | esc
  | backKey
  | other
deriving DecidableEq

/-- The loop state: the finder state plus the `escaped` accumulator
(the literal two-character string produced for a pending Escape is
the caret and the bracket). -/
structure LoopState (T : Type) where
  ff : FFState T
  escaped : List Char
deriving DecidableEq

/-- The outcome of running some iterations of the loop: still running,
returned (with `Result::Ok`), or hit a panic branch of the model. -/
inductive Outcome (T : Type) where
  | running (ls : LoopState T)
  | done (r : Option T)
  | panicked
deriving DecidableEq

/-- The pending `escaped` accumulator of a still-running outcome. -/
def pendingOf {T : Type} : Outcome T → Option (List Char)
  | .running ls => some ls.escaped
  | _ => none

/-- The query string of a still-running outcome. -/
def queryOf {T : Type} : Outcome T → Option (List Char)
  | .running ls => some ls.ff.search_term
  | _ => none

/-- The key dispatch of the loop body (lib.rs lines 244-304), given one
decoded key.  Mirrors the source arm for arm: Ctrl-C/Ctrl-D break (the
loop then returns `Ok(None)`); the newline arm returns the selected
payload when the match set is non-empty and `Ok(None)` otherwise; any
other character extends a pending escape sequence (dispatching arrows,
or abandoning an unrecognised sequence) or is appended to the query;
Escape opens a pending sequence only when none is pending; Backspace
always runs `backspace`; anything else is ignored. -/
def stepKey {T : Type} (m : Matcher) (ls : LoopState T) (k : RKey) :
    Outcome T :=
  match k with
  | .ctrlC => .done none
  | .ctrlD => .done none
  | .char c =>
    if c = '\n' then
      if ls.ff.«matches».isEmpty then .done none
      else
        match ls.ff.list.get_selected.item with
        | some p => .done (some p)
        | none => .panicked
    else if ls.escaped.isEmpty then
      match (FFState.appendQ m c ls.ff).render with
      | some (_, ff2) => .running ⟨ff2, ls.escaped⟩
      | none => .panicked
    else
      let e := ls.escaped ++ [c]
      if e = ['^', '['] then .running { ls with escaped := e }
      else if e = ['^', '[', '['] then .running { ls with escaped := e }
      else if e = ['^', '[', '[', 'A'] then
        match (FFState.upQ m ls.ff).render with
        | some (_, ff2) => .running ⟨ff2, []⟩
        | none => .panicked
      else if e = ['^', '[', '[', 'B'] then
        match (FFState.downQ m ls.ff).render with
        | some (_, ff2) => .running ⟨ff2, []⟩
        | none => .panicked
      else .running { ls with escaped := [] }
  | .esc =>
    if ls.escaped.isEmpty then .running { ls with escaped := ['^', '['] }
    else .running ls
  | .backKey =>
    match (FFState.backspaceQ m ls.ff).bind FFState.render with
    | some (_, ff2) => .running ⟨ff2, ls.escaped⟩
    | none => .panicked
  | .other => .running ls

/-- One full loop iteration (lib.rs lines 230-306): first the
standalone-Escape timeout check — the loop breaks (returning
`Ok(None)`) exactly when `escaped` is the two-character pending-Escape
string AND the elapsed microseconds exceed 100 — then, if a key is
available, the key dispatch. -/
def stepIter {T : Type} (m : Matcher) (ls : LoopState T) (elapsed : Nat)
    (k : Option RKey) : Outcome T :=
  if ls.escaped = ['^', '['] ∧ 100 < elapsed then .done none
  else
    match k with
    | none => .running ls
    | some key => stepKey m ls key

/-- Run the loop over a sequence of iterations, each given by the
elapsed time observed at its top and the key (if any) it reads. -/
def runLoop {T : Type} (m : Matcher) :
    LoopState T → List (Nat × Option RKey) → Outcome T
  | ls, [] => .running ls
  | ls, t :: ts =>
    match stepIter m ls t.1 t.2 with
    | .running ls2 => runLoop m ls2 ts
    | o => o

/-- `FuzzyFinder::find` (lib.rs lines 217-309): construct the state
(`new` never fails and performs no validation), `update_matches`,
`render`, then the polling loop with an initially empty `escaped`. -/
def FuzzyFinder.find {T : Type} (m : Matcher) (items : List (Item T))
    (linesToShow : Int) (cursorPos : Option Nat) (termHeight : Nat)
    (iters : List (Nat × Option RKey)) : Outcome T :=
  let s0 := FFState.update_matches m
    (FuzzyFinder.new items linesToShow cursorPos termHeight)
  match s0.render with
  | none => .panicked
  | some (_, s1) => runLoop m ⟨s1, []⟩ iters

/-! ### Properties of the Rust comparators -/

theorem natCmpd_lt_iff {a b : Nat} : natCmpd a b = .lt ↔ a < b := by
  unfold natCmpd
  split_ifs <;> simp_all

theorem natCmpd_eq_eq {a b : Nat} : natCmpd a b = .eq ↔ a = b := by
  unfold natCmpd
  split_ifs <;> simp_all
  omega

theorem natCmpd_ne_gt {a b : Nat} : natCmpd a b ≠ .gt ↔ a ≤ b := by
  unfold natCmpd
  split_ifs <;> simp_all <;> omega

theorem intCmp_lt_iff {a b : Int} : intCmp a b = .lt ↔ a < b := by
  unfold intCmp
  split_ifs <;> simp_all

theorem intCmp_eq_eq {a b : Int} : intCmp a b = .eq ↔ a = b := by
  unfold intCmp
  split_ifs <;> simp_all
  omega

theorem intCmp_ne_gt {a b : Int} : intCmp a b ≠ .gt ↔ a ≤ b := by
  unfold intCmp
  split_ifs <;> simp_all <;> omega

theorem natCmpd_swap (a b : Nat) : natCmpd b a = (natCmpd a b).swap := by
  unfold natCmpd
  split_ifs <;> first | rfl | omega

theorem intCmp_swap (a b : Int) : intCmp b a = (intCmp a b).swap := by
  unfold intCmp
  split_ifs <;> first | rfl | omega

theorem othen_swap (o p : Ordering) : (o.then p).swap = o.swap.then p.swap := by
  cases o <;> rfl

theorem othen_ne_gt {o p : Ordering} :
    o.then p ≠ .gt ↔ o = .lt ∨ (o = .eq ∧ p ≠ .gt) := by
  cases o <;> cases p <;> decide

theorem listNatCmp_swap : ∀ a b : List Nat, listNatCmp b a = (listNatCmp a b).swap
  | [], [] => rfl
  | [], _ :: _ => rfl
  | _ :: _, [] => rfl
  | a :: as, b :: bs => by
    show (natCmpd b a).then (listNatCmp bs as) =
      ((natCmpd a b).then (listNatCmp as bs)).swap
    rw [natCmpd_swap a b, listNatCmp_swap as bs, othen_swap]

theorem listNatCmp_refl : ∀ a : List Nat, listNatCmp a a = .eq
  | [] => rfl
  | a :: as => by
    show (natCmpd a a).then (listNatCmp as as) = .eq
    rw [natCmpd_eq_eq.mpr rfl, listNatCmp_refl as]
    rfl

theorem listNatCmp_le_trans :
    ∀ {a b c : List Nat}, listNatCmp a b ≠ .gt → listNatCmp b c ≠ .gt →
      listNatCmp a c ≠ .gt
  | [], b, [], _, _ => by simp [listNatCmp]
  | [], b, _ :: _, _, _ => by simp [listNatCmp]
  | _ :: _, [], _, h1, _ => by simp [listNatCmp] at h1
  | _ :: _, _ :: _, [], _, h2 => by simp [listNatCmp] at h2
  | a :: as, b :: bs, c :: cs, h1, h2 => by
    simp only [listNatCmp, othen_ne_gt, natCmpd_eq_eq, natCmpd_lt_iff] at h1 h2 ⊢
    rcases h1 with h1 | ⟨rfl, h1⟩ <;> rcases h2 with h2 | ⟨rfl, h2⟩
    · exact Or.inl (by omega)
    · exact Or.inl h1
    · exact Or.inl h2
    · exact Or.inr ⟨rfl, listNatCmp_le_trans h1 h2⟩

theorem scoreCmp_swap (a b : Score) : scoreCmp b a = (scoreCmp a b).swap := by
  show (intCmp b.1 a.1).then (listNatCmp b.2 a.2) =
    ((intCmp a.1 b.1).then (listNatCmp a.2 b.2)).swap
  rw [othen_swap, intCmp_swap a.1 b.1, listNatCmp_swap a.2 b.2]

theorem scoreCmp_refl (a : Score) : scoreCmp a a = .eq := by
  show (intCmp a.1 a.1).then (listNatCmp a.2 a.2) = .eq
  rw [intCmp_eq_eq.mpr rfl, listNatCmp_refl]
  rfl

theorem scoreCmp_le_trans {a b c : Score} (h1 : scoreCmp a b ≠ .gt)
    (h2 : scoreCmp b c ≠ .gt) : scoreCmp a c ≠ .gt := by
  simp only [scoreCmp, othen_ne_gt, intCmp_eq_eq, intCmp_lt_iff] at h1 h2 ⊢
  rcases h1 with h1 | ⟨e1, h1⟩ <;> rcases h2 with h2 | ⟨e2, h2⟩
  · exact Or.inl (by omega)
  · exact Or.inl (e2 ▸ h1)
  · exact Or.inl (e1 ▸ h2)
  · exact Or.inr ⟨e1.trans e2, listNatCmp_le_trans h1 h2⟩

theorem optScoreCmp_swap (a b : Option Score) :
    optScoreCmp b a = (optScoreCmp a b).swap := by
  cases a <;> cases b
  · rfl
  · rfl
  · rfl
  · exact scoreCmp_swap _ _

theorem optScoreCmp_refl (a : Option Score) : optScoreCmp a a = .eq := by
  cases a
  · rfl
  · exact scoreCmp_refl _

theorem optScoreCmp_le_trans {a b c : Option Score}
    (h1 : optScoreCmp a b ≠ .gt) (h2 : optScoreCmp b c ≠ .gt) :
    optScoreCmp a c ≠ .gt := by
  rcases a with _ | x <;> rcases b with _ | y <;> rcases c with _ | z
  · simp [optScoreCmp]
  · simp [optScoreCmp]
  · simp [optScoreCmp]
  · simp [optScoreCmp]
  · exact absurd rfl h1
  · exact absurd rfl h1
  · exact absurd rfl h2
  · exact scoreCmp_le_trans h1 h2

instance {T : Type} : IsTotal (Item T) matchOrder :=
  ⟨fun a b => by
    unfold matchOrder
    by_cases h : optScoreCmp b.score a.score = .gt
    · refine Or.inr ?_
      rw [optScoreCmp_swap b.score a.score, h]
      simp [Ordering.swap]
    · exact Or.inl h⟩

instance {T : Type} : IsTrans (Item T) matchOrder :=
  ⟨fun a b c h1 h2 => by
    unfold matchOrder at *
    exact optScoreCmp_le_trans h2 h1⟩

/-! ### Claim C1: the match collection after update_matches -/

/-- Helper: all pairs inside one score class are mutually ordered. -/
theorem pairwise_of_same_score {T : Type} {l : List (Item T)}
    {sc : Option Score} (h : ∀ it ∈ l, it.score = sc) :
    l.Pairwise (@matchOrder T) := by
  refine List.pairwise_of_forall_mem_list (fun a ha b hb => ?_)
  unfold matchOrder
  rw [h a ha, h b hb, optScoreCmp_refl]
  simp

/--
C1, amended.  After `update_matches`, the `matches` field is a
permutation of the rescored items that have a score (conjunct 1),
sorted descending by the FULL score value — rank first, then the
matched-position sequence lexicographically — (conjunct 2), and within
each class of items whose whole scores are equal, the original input
order is preserved (conjunct 3: filtering `matches` to one score value
gives exactly the input-order filtered list).  The original claim's
"ties on rank broken by input order" fails because the sort of
lib.rs line 203 compares whole `Option<(rank, positions)>` values, so
rank ties are broken by the matched positions, not by input order; see
the counterexample.
-/
theorem update_matches_characterization {T : Type} (m : Matcher)
    (s : FFState T) :
    ((FFState.update_matches m s).«matches»).Perm
      ((rescore m s.search_term s.all_items).filter (fun f => f.score.isSome)) ∧
    ((FFState.update_matches m s).«matches»).Pairwise matchOrder ∧
    ∀ sc : Option Score,
      ((FFState.update_matches m s).«matches»).filter
          (fun it => decide (it.score = sc)) =
        ((rescore m s.search_term s.all_items).filter
            (fun f => f.score.isSome)).filter
          (fun it => decide (it.score = sc)) := by
  set fl := (rescore m s.search_term s.all_items).filter
    (fun f => f.score.isSome) with hfl
  have hdef : (FFState.update_matches m s).«matches» =
      List.insertionSort matchOrder fl := rfl
  rw [hdef]
  refine ⟨List.perm_insertionSort _ _, List.sorted_insertionSort _ _, ?_⟩
  intro sc
  set p : Item T → Bool := fun it => decide (it.score = sc) with hp
  have hsame : ∀ it ∈ fl.filter p, it.score = sc := by
    intro it hit
    have := List.of_mem_filter hit
    simpa [hp] using this
  have hpw : (fl.filter p).Pairwise (@matchOrder T) :=
    pairwise_of_same_score hsame
  have hsub : List.Sublist (fl.filter p) (List.insertionSort matchOrder fl) :=
    List.sublist_insertionSort hpw (List.filter_sublist fl)
  have hsub2 : List.Sublist (fl.filter p)
      ((List.insertionSort matchOrder fl).filter p) := by
    have h2 := hsub.filter p
    have h3 : (fl.filter p).filter p = fl.filter p := by
      apply List.filter_eq_self.mpr
      intro a ha
      exact List.of_mem_filter ha
    rwa [h3] at h2
  have hperm : ((List.insertionSort matchOrder fl).filter p).Perm (fl.filter p) :=
    (List.perm_insertionSort matchOrder fl).filter p
  have hlen : (fl.filter p).length =
      ((List.insertionSort matchOrder fl).filter p).length :=
    (hperm.length_eq).symm
  exact (hsub2.eq_of_length hlen).symm

/-- The matcher used by several concrete counterexamples: every
candidate matches with rank 5; the item named "a" has matched position
0, every other item has matched position 1. -/
def mTie : Matcher := fun name _ =>
  if name = ['a'] then some (5, [0]) else some (5, [1])

/-- Input item "a" (payload 0), first in input order. -/
def itA : Item Nat := Item.new ['a'] 0

/-- Input item "b" (payload 1), second in input order. -/
def itB : Item Nat := Item.new ['b'] 1

/-- The state after `find`'s initial `update_matches` on `[itA, itB]`
with the tie matcher. -/
def sTie : FFState Nat :=
  FFState.update_matches mTie (FuzzyFinder.new [itA, itB] 7 (some 1) 50)

/--
C1, counterexample.  Both items score rank 5 (a rank tie), with matched
positions [0] for the first input item and [1] for the second.  The
claim says rank ties are broken by original input order, which predicts
`matches = [a-item, b-item]`; the code sorts by the whole score, and
`(5, [1]) > (5, [0])`, so it actually produces `[b-item, a-item]`.
-/
theorem update_matches_rank_tie_cex :
    sTie.«matches» =
      [{ itB with score := some (5, [1]) }, { itA with score := some (5, [0]) }] ∧
    sTie.«matches» ≠
      [{ itA with score := some (5, [0]) }, { itB with score := some (5, [1]) }] := by
  constructor
  · rfl
  · decide

/-! ### Shared concrete states for the concrete theorems -/

/-- A matcher that matches everything with rank 1 and no positions. -/
def mAll : Matcher := fun _ _ => some (1, [])

/-- The finder state of a session over no items (capacity 7). -/
def ffEmptyM : FFState Nat :=
  FFState.update_matches mAll (FuzzyFinder.new ([] : List (Item Nat)) 7 (some 1) 50)

/-- Loop state over no items, nothing pending. -/
def lsEmpty : LoopState Nat := ⟨ffEmptyM, []⟩

/-- The finder state of a session over one item "z" with payload 7. -/
def ffOne : FFState Nat :=
  FFState.update_matches mAll (FuzzyFinder.new [Item.new ['z'] 7] 3 (some 1) 50)

/-- Loop state over that one item, nothing pending. -/
def lsOne : LoopState Nat := ⟨ffOne, []⟩

/-! ### Claim C2: the Confirm (Enter) event -/

/--
C2, amended.  The newline arm of the loop (lib.rs lines 254-268)
RETURNS in both branches: with an empty match set it terminates the
session returning no payload (`Ok(None)`), it does not remain running;
with a non-empty match set it terminates returning the selected item's
payload.  The original claim's "remains in the Running state and the
confirm is a no-op" for the empty case is what fails; see the
counterexample.
-/
theorem confirm_transitions {T : Type} (m : Matcher) (ls : LoopState T) :
    (ls.ff.«matches» = [] → stepKey m ls (.char '\n') = .done none) ∧
    (∀ p : T, ls.ff.«matches» ≠ [] → ls.ff.list.get_selected.item = some p →
      stepKey m ls (.char '\n') = .done (some p)) := by
  constructor
  · intro h
    unfold stepKey
    simp [h]
  · intro p h hp
    unfold stepKey
    rcases hl : ls.ff.«matches» with _ | ⟨a, rest⟩
    · exact absurd hl h
    · simp [hl, hp]

/--
C2, counterexample.  Pressing Enter while the match set is empty: the
loop does NOT remain running (there is no running successor state whose
query could be inspected; `queryOf` of the outcome is `none`) — it
terminates, returning no payload.
-/
theorem confirm_empty_terminates_cex :
    stepKey mAll lsEmpty (.char '\n') = .done none ∧
    queryOf (stepKey mAll lsEmpty (.char '\n')) = none := ⟨rfl, rfl⟩

/-- C2 witness: both branches of `confirm_transitions` applied at
concrete sessions (no items / one item with payload 7). -/
theorem confirm_transitions_witness :
    stepKey mAll lsEmpty (.char '\n') = .done none ∧
    stepKey mAll lsOne (.char '\n') = .done (some 7) :=
  ⟨(confirm_transitions mAll lsEmpty).1 rfl,
   (confirm_transitions mAll lsOne).2 7 (by decide) rfl⟩

/-! ### Claim C3: the standalone-Escape timeout -/

/--
C3, amended.  The timeout check of lib.rs line 239 compares `escaped`
against the two-character pending-Escape string only: in PendingEscape,
once more than 100 microseconds have elapsed the iteration resolves to
exactly one Cancel (the loop breaks and `find` returns `Ok(None)`),
whatever arrives next.  In PendingBracket (`escaped` is the
three-character string) the timeout does NOT fire: an iteration with no
byte available leaves the state unchanged, for any elapsed time — the
original claim's "in either pending state" fails; see the
counterexample.
-/
theorem escape_timeout_resolution {T : Type} :
    (∀ (m : Matcher) (ls : LoopState T) (e : Nat) (k : Option RKey),
      ls.escaped = ['^', '['] → 100 < e → stepIter m ls e k = .done none) ∧
    (∀ (m : Matcher) (ls : LoopState T) (e : Nat),
      ls.escaped = ['^', '[', '['] → stepIter m ls e none = .running ls) := by
  constructor
  · intro m ls e k h he
    unfold stepIter
    rw [if_pos ⟨h, he⟩]
  · intro m ls e h
    unfold stepIter
    rw [if_neg]
    rintro ⟨h1, _⟩
    rw [h] at h1
    exact absurd h1 (by decide)

/--
C3, counterexample.  Escape, then a bracket 50 microseconds later (an
arrow sequence left unfinished), then two polls with no byte available
at 200 and 1000000 elapsed microseconds — far beyond the threshold.
The claim predicts the pending state resolves to a standalone Cancel
and the session terminates; instead the session is still running with
the pending bracket intact.
-/
theorem pending_bracket_no_timeout_cex :
    pendingOf (FuzzyFinder.find mAll ([] : List (Item Nat)) 2 (some 1) 50
      [(0, some .esc), (50, some (.char '[')), (200, none), (1000000, none)]) =
      some ['^', '[', '['] := rfl

/-- C3 witness: the timeout fires at 101 microseconds in PendingEscape
and does not fire in PendingBracket. -/
theorem escape_timeout_resolution_witness :
    stepIter mAll ⟨ffEmptyM, ['^', '[']⟩ 101 none = .done none ∧
    stepIter mAll ⟨ffEmptyM, ['^', '[', '[']⟩ 101 none =
      .running ⟨ffEmptyM, ['^', '[', '[']⟩ :=
  ⟨(escape_timeout_resolution (T := Nat)).1 mAll ⟨ffEmptyM, ['^', '[']⟩ 101 none
      rfl (by decide),
   (escape_timeout_resolution (T := Nat)).2 mAll ⟨ffEmptyM, ['^', '[', '[']⟩ 101 rfl⟩

/-! ### Claim C4: a stray token in PendingEscape -/

/--
C4, amended.  A character other than newline and other than the
bracket, arriving in PendingEscape, is appended to `escaped`, falls
into the catch-all arm of lib.rs lines 283-286, and the whole pending
sequence INCLUDING the stray character is discarded: nothing is
re-dispatched, no Insert occurs, and the state is unchanged except that
`escaped` is cleared.  The original claim's "re-dispatched from Idle so
that it has its usual effect" fails; see the counterexample.
-/
theorem pending_escape_discards_stray {T : Type} (m : Matcher)
    (ls : LoopState T) (c : Char) (h1 : ls.escaped = ['^', '['])
    (h2 : c ≠ '\n') (h3 : c ≠ '[') :
    stepKey m ls (.char c) = .running { ls with escaped := [] } := by
  unfold stepKey
  simp only []
  rw [if_neg h2, h1]
  simp [h3]

/--
C4, counterexample.  Escape, then the character x 10 microseconds
later.  The claim predicts the x is re-dispatched and inserted (query
becomes the one-character string x); instead both the pending escape
and the x are discarded: the query is still empty and nothing is
pending.
-/
theorem stray_char_not_redispatched_cex :
    queryOf (FuzzyFinder.find mAll ([] : List (Item Nat)) 2 (some 1) 50
      [(0, some .esc), (10, some (.char 'x'))]) = some [] ∧
    pendingOf (FuzzyFinder.find mAll ([] : List (Item Nat)) 2 (some 1) 50
      [(0, some .esc), (10, some (.char 'x'))]) = some [] := ⟨rfl, rfl⟩

/-- C4 witness: the stray character x in PendingEscape. -/
theorem pending_escape_discards_stray_witness :
    stepKey mAll ⟨ffEmptyM, ['^', '[']⟩ (.char 'x') = .running ⟨ffEmptyM, []⟩ :=
  pending_escape_discards_stray mAll ⟨ffEmptyM, ['^', '[']⟩ 'x' rfl
    (by decide) (by decide)

/-! ### Claim C7: repaint idempotence -/

/-- `render` mutates nothing but the first-paint flag: a successful
render returns the input state with `first` cleared. -/
theorem render_state_eq {T : Type} {s s2 : FFState T} {o : List Char}
    (h : s.render = some (o, s2)) : s2 = { s with first := false } := by
  unfold FFState.render at h
  simp only [renderSpace] at h
  rw [Option.map_eq_some'] at h
  obtain ⟨o2, _, heq⟩ := h
  have h2 := congrArg Prod.snd heq
  simpa using h2.symm

/--
C7, amended.  After the first paint (the first-paint flag cleared),
`render` is a pure function of the model state and is idempotent: a
successful repaint leaves the state exactly as it was, and repainting
twice with no intervening model change produces identical output bytes
both times.  On the very FIRST paint the claim fails: `render_space`
(lib.rs lines 114-119) writes the reserved blank rows only when the
first-paint flag is set and then clears the flag, so the first and
second paints from session start differ; see the counterexample.
-/
theorem render_pure_after_first {T : Type} (s : FFState T) (o : List Char)
    (s2 : FFState T) (h0 : s.first = false) (h : s.render = some (o, s2)) :
    s2 = s ∧ renderTwice s = some (o, o) := by
  have he : s2 = { s with first := false } := render_state_eq h
  have hs : ({ s with first := false } : FFState T) = s := by
    cases s
    simp_all
  rw [hs] at he
  subst he
  refine ⟨rfl, ?_⟩
  simp [renderTwice, h]

/-- The session-start state of C7's counterexample: capacity 1, no
items, first-paint flag still set (exactly the state `find` repaints
first).  The row anchor is terminal row 1 with no overflow. -/
def s7 : FFState Nat :=
  { search_term := [], all_items := [], «matches» := [], console_offset := 1,
    first := true, list := ⟨1, 0, 0, [Item.blank]⟩,
    positive_space_remaining := 0 }

/--
C7, counterexample.  Repainting twice from the session-start state with
no intervening model change: both repaints succeed, but the first output
contains the reserved blank rows and the second does not, so the bytes
differ — `render` is not idempotent on the first paint (it reads and
clears the first-paint flag, which is not part of what the claim calls
the model state).
-/
theorem first_paint_render_differs_cex :
    (renderTwice s7).map (fun p => p.1 == p.2) = some false := rfl

/-- The same state after its first paint. -/
def s7f : FFState Nat := { s7 with first := false }

/-- The bytes of one repaint of `s7f`. -/
def o7 : List Char := ((s7f.render).map Prod.fst).getD []

/-- C7 witness: the amended idempotence applied at the concrete
post-first-paint state. -/
theorem render_pure_after_first_witness :
    s7f = s7f ∧ renderTwice s7f = some (o7, o7) :=
  render_pure_after_first s7f o7 s7f rfl rfl

/-! ### Claim C8: zero capacity is not rejected -/

/--
C8, amended.  `FuzzyFinder::new` has no error path at all (it returns
`Self`, not a `Result`): a capacity of 0 is accepted, the state is
built with the items and a zero-capacity list window, and the session
loop runs normally — an Insert event processed from such a session
appends to the query exactly as for any other capacity.  The original
claim's "rejected at construction as a configuration error, and the
session loop is never entered" fails; see the counterexample.
-/
theorem capacity_zero_accepted {T : Type} :
    (∀ (items : List (Item T)) (cp : Option Nat) (th : Nat),
      (FuzzyFinder.new items 0 cp th).all_items = items ∧
      (FuzzyFinder.new items 0 cp th).list = ListW.new T 0) ∧
    (∀ (m : Matcher) (s1 : FFState T) (c : Char) (ls2 : LoopState T),
      c ≠ '\n' → stepKey m ⟨s1, []⟩ (.char c) = .running ls2 →
      ls2.ff.search_term = s1.search_term ++ [c]) := by
  constructor
  · intro items cp th
    exact ⟨rfl, rfl⟩
  · intro m s1 c ls2 hc h
    unfold stepKey at h
    simp only [] at h
    rw [if_neg hc] at h
    simp only [List.isEmpty_nil, if_pos] at h
    rcases hr : (FFState.appendQ m c s1).render with _ | ⟨o2, ff2⟩
    · rw [hr] at h
      exact absurd h (by simp)
    · rw [hr] at h
      have h2 : ls2 = ⟨ff2, []⟩ := by
        cases h
        rfl
      have h3 : ff2 = { FFState.appendQ m c s1 with first := false } :=
        render_state_eq hr
      rw [h2, h3]
      rfl

/--
C8, counterexample.  `find` with capacity 0: construction succeeds, the
loop is entered, and an Insert event is processed normally (the query
becomes the one-character string a) — no configuration error exists
anywhere in the types or the control flow.
-/
theorem capacity_zero_loop_entered_cex :
    queryOf (FuzzyFinder.find mAll ([] : List (Item Nat)) 0 (some 1) 50
      [(0, some (.char 'a'))]) = some ['a'] := rfl

/-- The capacity-0 session state after the initial update. -/
def ff0 : FFState Nat :=
  FFState.update_matches mAll (FuzzyFinder.new ([] : List (Item Nat)) 0 (some 1) 50)

/-- The state after inserting the character a into the capacity-0
session (the render step included). -/
def ff8 : FFState Nat :=
  (((FFState.appendQ mAll 'a' ff0).render).map Prod.snd).getD ff0

/-- C8 witness: both conjuncts applied at concrete capacity-0 inputs. -/
theorem capacity_zero_accepted_witness :
    ((FuzzyFinder.new [itA] 0 (some 1) 50).all_items = [itA] ∧
      (FuzzyFinder.new [itA] 0 (some 1) 50).list = ListW.new Nat 0) ∧
    (LoopState.mk ff8 []).ff.search_term = ff0.search_term ++ ['a'] :=
  ⟨capacity_zero_accepted.1 [itA] (some 1) 50,
   capacity_zero_accepted.2 mAll ff0 'a' ⟨ff8, []⟩ (by decide) rfl⟩

/-! ### Claim C9: the overflow-row computation -/

/--
C9, confirmed.  For an in-range cursor row and terminal height (no
`u16`/`i16` overflow: the claim's formula is about the genuine values),
the construction computes `console_offset = cursor_row` and
`positive_space_remaining = max(0, cursor_row + capacity −
terminal_height)` (expressed as the `Int` subtraction clamped at 0 by
`toNat`), exactly once, from the current cursor row and terminal
height; when the cursor position cannot be determined the session uses
offset 0 (and reserves no overflow rows) instead of failing.
-/
theorem new_offsets_formula :
    (∀ (y th : Nat) (lts : Int), 0 ≤ lts → lts ≤ 127 →
      y + lts.toNat < 32768 → th < 32768 →
      newOffsets (some y) th lts = (y, ((y : Int) + lts - th).toNat)) ∧
    ∀ (th : Nat) (lts : Int), newOffsets none th lts = (0, 0) := by
  constructor
  · intro y th lts h0 h127 hy hth
    simp only [newOffsets, u16OfI8, i16OfU16, Prod.mk.injEq]
    refine ⟨trivial, ?_⟩
    split_ifs <;> omega
  · intro th lts
    rfl

/-- C9 witness: cursor row 40, terminal height 50, capacity 20 →
offset 40 and 10 overflow rows; cursor undetected → offset 0. -/
theorem new_offsets_formula_witness :
    newOffsets (some 40) 50 20 = (40, ((40 : Int) + 20 - 50).toNat) ∧
    newOffsets none 50 20 = (0, 0) :=
  ⟨new_offsets_formula.1 40 50 20 (by decide) (by decide) (by decide) (by decide),
   new_offsets_formula.2 50 20⟩

/-! ### Claim C6: backspace removes the last character -/

/-- A state whose query is the two-character string e-acute then a
(typed as two Insert events; `Key::Char` delivers any Unicode
character). -/
def sEA : FFState Nat :=
  { search_term := ['é', 'a'], all_items := [], «matches» := [],
    console_offset := 1, first := false, list := ListW.new Nat 2,
    positive_space_remaining := 0 }

/-- The same state with the ASCII query ab. -/
def sAB : FFState Nat := { sEA with search_term := ['a', 'b'] }

/--
C6: the code bug.  `backspace` (lib.rs lines 98-100) truncates the
query with `&self.search_term[..self.search_term.chars().count() - 1]`,
a BYTE slice whose end index is a CHARACTER count.  For an ASCII query
this removes exactly the last character (second conjunct: ab becomes
a), as the claim states.  But for the reachable query e-acute-then-a
the character count is 2 while the e-acute occupies two bytes, so byte
index 1 is not a character boundary and the slice panics (first
conjunct); driving the full session loop into Backspace after typing
those two characters panics likewise (third conjunct) instead of
leaving the one-character query e-acute.
-/
theorem backspace_multibyte_panics :
    FFState.backspaceQ mAll sEA = none ∧
    (FFState.backspaceQ mAll sAB).map (fun s => s.search_term) = some ['a'] ∧
    FuzzyFinder.find mAll ([] : List (Item Nat)) 2 (some 1) 50
      [(0, some (.char 'é')), (0, some (.char 'a')), (0, some .backKey)] =
      .panicked :=
  ⟨rfl, rfl, rfl⟩

/-! ### Claim C5: navigation does not touch the search model -/

/-- The state's scores agree with what the matcher returns for the
current query (this holds for every state `update_matches` has just
produced, since the matcher is a pure function). -/
def FFState.scoresCurrent {T : Type} (m : Matcher) (s : FFState T) : Prop :=
  s.all_items = rescore m s.search_term s.all_items

/-- The state's match collection agrees with a recomputation for the
current query (again true of every post-`update_matches` state). -/
def FFState.matchesCurrent {T : Type} (m : Matcher) (s : FFState T) : Prop :=
  s.«matches» = List.insertionSort matchOrder
    ((rescore m s.search_term s.all_items).filter (fun f => f.score.isSome))

/--
C5, amended.  NavigateUp and NavigateDown leave the query string, every
item's score, and the match collection unchanged AS VALUES (given that
the state's scores and matches already agree with the matcher for the
unchanged query, which holds of every state the loop produces), and
also leave the console offset, the overflow-row count and the
first-paint flag unchanged: only the list-window selection/scroll state
(and the repaint output) change.  The original claim's "no matcher call
occurs for the unchanged query" fails: `up` and `down` (lib.rs lines
77-87) call `update_matches`, which performs one `fuzzy_indices` call
per item; see the counterexample.
-/
theorem nav_preserves_search_model {T : Type} (m : Matcher) (s : FFState T)
    (h1 : FFState.scoresCurrent m s) (h2 : FFState.matchesCurrent m s) :
    ((FFState.upQ m s).search_term = s.search_term ∧
      (FFState.upQ m s).all_items = s.all_items ∧
      (FFState.upQ m s).«matches» = s.«matches» ∧
      (FFState.upQ m s).console_offset = s.console_offset ∧
      (FFState.upQ m s).positive_space_remaining = s.positive_space_remaining ∧
      (FFState.upQ m s).first = s.first) ∧
    ((FFState.downQ m s).search_term = s.search_term ∧
      (FFState.downQ m s).all_items = s.all_items ∧
      (FFState.downQ m s).«matches» = s.«matches» ∧
      (FFState.downQ m s).console_offset = s.console_offset ∧
      (FFState.downQ m s).positive_space_remaining = s.positive_space_remaining ∧
      (FFState.downQ m s).first = s.first) :=
  ⟨⟨rfl, h1.symm, h2.symm, rfl, rfl, rfl⟩,
   ⟨rfl, h1.symm, h2.symm, rfl, rfl, rfl⟩⟩

/--
C5, counterexample.  Navigating up from the two-item tie session: the
query is unchanged by the navigation, yet `up` performs 2 matcher
invocations (one per item) — the claim requires 0 matcher calls for an
unchanged query.
-/
theorem nav_calls_matcher_cex :
    FFState.upQ_calls mTie sTie = 2 ∧
    (FFState.upQ mTie sTie).search_term = sTie.search_term := ⟨rfl, rfl⟩

/-- C5 witness: the preservation applied at the concrete tie session
(whose scores and matches are current for its matcher by
construction). -/
theorem nav_preserves_search_model_witness :
    ((FFState.upQ mTie sTie).search_term = sTie.search_term ∧
      (FFState.upQ mTie sTie).all_items = sTie.all_items ∧
      (FFState.upQ mTie sTie).«matches» = sTie.«matches» ∧
      (FFState.upQ mTie sTie).console_offset = sTie.console_offset ∧
      (FFState.upQ mTie sTie).positive_space_remaining =
        sTie.positive_space_remaining ∧
      (FFState.upQ mTie sTie).first = sTie.first) ∧
    ((FFState.downQ mTie sTie).search_term = sTie.search_term ∧
      (FFState.downQ mTie sTie).all_items = sTie.all_items ∧
      (FFState.downQ mTie sTie).«matches» = sTie.«matches» ∧
      (FFState.downQ mTie sTie).console_offset = sTie.console_offset ∧
      (FFState.downQ mTie sTie).positive_space_remaining =
        sTie.positive_space_remaining ∧
      (FFState.downQ mTie sTie).first = sTie.first) :=
  nav_preserves_search_model mTie sTie rfl rfl

/-! ### Claim C10: get_coloured_line on ASCII and on multi-byte text -/

/-- On single-byte text, `takeBytes` is total and is `List.take`. -/
theorem takeBytes_ascii : ∀ (s : List Char) (n : Nat),
    (∀ c ∈ s, charSize c = 1) → n ≤ s.length → takeBytes s n = some (s.take n)
  | _, 0, _, _ => by simp [takeBytes]
  | [], n + 1, _, h => by simp at h
  | c :: rest, n + 1, ha, h => by
    have hc : charSize c = 1 := ha c (List.mem_cons_self c rest)
    have hr : takeBytes rest n = some (rest.take n) :=
      takeBytes_ascii rest n (fun x hx => ha x (List.mem_cons_of_mem c hx))
        (by simpa using h)
    simp [takeBytes, hc, hr]

/-- On single-byte text, `dropBytes` is total and is `List.drop`. -/
theorem dropBytes_ascii : ∀ (s : List Char) (n : Nat),
    (∀ c ∈ s, charSize c = 1) → n ≤ s.length → dropBytes s n = some (s.drop n)
  | _, 0, _, _ => by simp [dropBytes]
  | [], n + 1, _, h => by simp at h
  | c :: rest, n + 1, ha, h => by
    have hc : charSize c = 1 := ha c (List.mem_cons_self c rest)
    have hr : dropBytes rest n = some (rest.drop n) :=
      dropBytes_ascii rest n (fun x hx => ha x (List.mem_cons_of_mem c hx))
        (by simpa using h)
    simp [dropBytes, hc, hr]

/-- On single-byte text, a byte slice is total and denotes the obvious
character segment. -/
theorem slice_ascii (s : List Char) (a b : Nat)
    (ha : ∀ c ∈ s, charSize c = 1) (hab : a ≤ b) (hb : b ≤ s.length) :
    slice s a b = some ((s.drop a).take (b - a)) := by
  unfold slice
  rw [if_pos hab, dropBytes_ascii s a ha (by omega)]
  simpa using takeBytes_ascii (s.drop a) (b - a)
    (fun c hc => ha c (List.mem_of_mem_drop hc))
    (by simp [List.length_drop]; omega)

/-- Splitting one character segment at an interior point. -/
theorem seg_split {α : Type} (l : List α) (a b c : Nat) (hab : a ≤ b)
    (hbc : b ≤ c) :
    (l.drop a).take (c - a) =
      (l.drop a).take (b - a) ++ (l.drop b).take (c - b) := by
  have h1 : l.drop b = (l.drop a).drop (b - a) := by
    rw [List.drop_drop]
    congr 1
    omega
  have h2 : c - a = (b - a) + (c - b) := by omega
  rw [h1, h2, List.take_add]

/-- The two plain segments survive inside one coloured piece. -/
theorem piece_sublist (isSel : Bool) (X Y : List Char) :
    List.Sublist (X ++ Y) (colourPiece isSel X Y) := by
  cases isSel
  · show List.Sublist (X ++ Y) (X ++ DARK_BLUE_BG ++ Y ++ RESET_BG)
    have hY : List.Sublist Y (DARK_BLUE_BG ++ (Y ++ RESET_BG)) :=
      (List.sublist_append_left Y RESET_BG).trans
        (List.sublist_append_right DARK_BLUE_BG (Y ++ RESET_BG))
    have h2 := (List.Sublist.refl X).append hY
    simp only [List.append_assoc]
    exact h2
  · show List.Sublist (X ++ Y)
      (DARK_GREY_BG ++ X ++ RESET_BG ++ DARK_BLUE_BG ++ Y ++ RESET_BG)
    have hY : List.Sublist Y (RESET_BG ++ (DARK_BLUE_BG ++ (Y ++ RESET_BG))) :=
      ((List.sublist_append_left Y RESET_BG).trans
        (List.sublist_append_right DARK_BLUE_BG (Y ++ RESET_BG))).trans
        (List.sublist_append_right RESET_BG _)
    have hXY : List.Sublist (X ++ Y)
        (X ++ (RESET_BG ++ (DARK_BLUE_BG ++ (Y ++ RESET_BG)))) :=
      (List.Sublist.refl X).append hY
    have h2 := hXY.trans (List.sublist_append_right DARK_GREY_BG _)
    simpa [List.append_assoc] using h2

/-- The loop of `get_coloured_line` on single-byte text with strictly
increasing in-range indices all at or beyond `start`: it is total, its
final `start` stays in range, and the consumed character segment
survives (in order) inside the accumulated coloured text. -/
theorem gclAux_ascii (text : List Char) (isSel : Bool) :
    ∀ (idxs : List Nat) (start : Nat),
    (∀ c ∈ text, charSize c = 1) →
    idxs.Pairwise (· < ·) →
    (∀ i ∈ idxs, i < text.length) →
    (∀ i ∈ idxs, start ≤ i) →
    start ≤ text.length →
    ∃ acc fin, gclAux text isSel idxs start = some (acc, fin) ∧
      start ≤ fin ∧ fin ≤ text.length ∧
      List.Sublist ((text.drop start).take (fin - start)) acc
  | [], start, _, _, _, _, hlen =>
    ⟨[], start, rfl, le_refl _, hlen, by simp⟩
  | i :: rest, start, ha, hp, hb, hs, hlen => by
    have hi : i < text.length := hb i (List.mem_cons_self i rest)
    have hsi : start ≤ i := hs i (List.mem_cons_self i rest)
    have hpart : slice text start i = some ((text.drop start).take (i - start)) :=
      slice_ascii text start i ha hsi (le_of_lt hi)
    have hmc : slice text i (i + 1) = some ((text.drop i).take 1) := by
      simpa using slice_ascii text i (i + 1) ha (by omega) (by omega)
    obtain ⟨acc2, fin, hgcl, hf1, hf2, hsub⟩ :=
      gclAux_ascii text isSel rest (i + 1) ha hp.of_cons
        (fun j hj => hb j (List.mem_cons_of_mem i hj))
        (fun j hj => by
          have := List.rel_of_pairwise_cons hp hj
          omega)
        (by omega)
    refine ⟨colourPiece isSel ((text.drop start).take (i - start))
        ((text.drop i).take 1) ++ acc2, fin, ?_, by omega, hf2, ?_⟩
    · simp [gclAux, hpart, hmc, hgcl]
    · have hd1 : (text.drop start).take (fin - start) =
          (text.drop start).take (i - start) ++ (text.drop i).take (fin - i) :=
        seg_split text start i fin hsi (by omega)
      have hd2 : (text.drop i).take (fin - i) =
          (text.drop i).take 1 ++ (text.drop (i + 1)).take (fin - (i + 1)) := by
        simpa using seg_split text i (i + 1) fin (by omega) (by omega)
      rw [hd1, hd2, ← List.append_assoc]
      exact (piece_sublist isSel _ _).append hsub

/--
C10, confirmed.  First conjunct: on text of single-byte (ASCII)
characters, with strictly increasing matched positions all below the
text's length, `get_coloured_line` is total (no byte slice panics) and
every character of the input text survives in order in its output (the
text is a sublist of the output).  Second and third conjuncts: on the
one-character text e-acute (two bytes, one character), the byte-range
indexing is not well-defined and the panic branch is reachable — both
through the final segment `text[start..chars().count()]` (empty index
list) and through `text[i..i+1]` (index 0).
-/
theorem get_coloured_line_spec :
    (∀ (text : List Char) (idxs : List Nat) (isSel : Bool),
      (∀ c ∈ text, charSize c = 1) →
      idxs.Pairwise (· < ·) →
      (∀ i ∈ idxs, i < text.length) →
      ∃ out, get_coloured_line idxs text isSel = some out ∧
        List.Sublist text out) ∧
    get_coloured_line [] ['é'] false = none ∧
    get_coloured_line [0] ['é'] false = none := by
  refine ⟨?_, rfl, rfl⟩
  intro text idxs isSel ha hp hb
  obtain ⟨acc, fin, hgcl, hf0, hfl, hsub⟩ :=
    gclAux_ascii text isSel idxs 0 ha hp hb (fun i _ => Nat.zero_le i)
      (Nat.zero_le _)
  have hsub0 : List.Sublist (text.take fin) acc := by
    rw [List.drop_zero, Nat.sub_zero] at hsub
    exact hsub
  have hrem : slice text fin text.length = some (text.drop fin) := by
    have h1 := slice_ascii text fin text.length ha hfl (le_refl _)
    have h2 : (text.drop fin).take (text.length - fin) = text.drop fin :=
      List.take_of_length_le (by simp [List.length_drop])
    rw [h2] at h1
    exact h1
  have hcore : List.Sublist text (acc ++ text.drop fin) := by
    have h1 : List.Sublist (text.take fin ++ text.drop fin)
        (acc ++ text.drop fin) := hsub0.append (List.Sublist.refl _)
    rwa [List.take_append_drop] at h1
  cases isSel
  · refine ⟨DARK_GREY_BG ++ [' '] ++ RESET_BG ++ [' ', ' '] ++ acc ++
      text.drop fin, ?_, ?_⟩
    · simp [get_coloured_line, hgcl, hrem]
    · have h2 := hcore.trans
        (List.sublist_append_right (DARK_GREY_BG ++ [' '] ++ RESET_BG ++ [' ', ' '])
          (acc ++ text.drop fin))
      simpa [List.append_assoc] using h2
  · refine ⟨DARK_GREY_BG ++ GREEN_FG ++ ['>'] ++ RESET_FG ++ RESET_BG ++
      (DARK_GREY_FG ++ [' ', ' '] ++ RESET_FG) ++ acc ++
      DARK_GREY_BG ++ text.drop fin ++ RESET_BG, ?_, ?_⟩
    · simp [get_coloured_line, hgcl, hrem]
    · have hrem2 : List.Sublist (text.drop fin)
          (DARK_GREY_BG ++ (text.drop fin ++ RESET_BG)) :=
        (List.sublist_append_left (text.drop fin) RESET_BG).trans
          (List.sublist_append_right DARK_GREY_BG _)
      have h1 : List.Sublist text (acc ++ (DARK_GREY_BG ++ (text.drop fin ++ RESET_BG))) := by
        have := hsub0.append hrem2
        rw [List.take_append_drop] at this
        exact this
      have h2 := h1.trans
        (List.sublist_append_right (DARK_GREY_BG ++ GREEN_FG ++ ['>'] ++ RESET_FG ++
          RESET_BG ++ (DARK_GREY_FG ++ [' ', ' '] ++ RESET_FG)) _)
      simpa [List.append_assoc] using h2

/-- C10 witness: the ASCII half applied at text ab with matched
position 1, selected. -/
theorem get_coloured_line_spec_witness :
    ∃ out, get_coloured_line [1] ['a', 'b'] true = some out ∧
      List.Sublist ['a', 'b'] out :=
  get_coloured_line_spec.1 ['a', 'b'] [1] true (by decide) (by decide) (by decide)

end LK
